import Mathlib

/-!
Scheduler framework plugin registry (`pkg/scheduler/framework/runtime/registry.go`).

A shallow embedding of the plugin registry and of `DecodeInto`, followed by
theorems about them.

Modelling conventions.

* A Go `map[string]V` is either the nil map or a finite table whose keys are
  pairwise distinct (`GoMap`).  Reading a nil map finds nothing, `delete` on a
  nil map does nothing, and writing into a nil map panics.
* `for name, factory := range in.Pf` visits every entry of the map exactly
  once in an order the language leaves open.  The visiting order is therefore
  an explicit argument of `Merge`, and `Enumerates` says that a list is one of
  the possible visiting orders of a map.
* A Go interface value (the custom queue, the configuration object) is
  `Option`: `none` is the nil interface.
* A method with a pointer receiver returns the registry it leaves behind
  together with its `Outcome`: `ok` for a nil error, `error msg` for an error
  built by `fmt.Errorf`, `panic` for a run-time panic.
-/

namespace SchedRuntime

/-! ## Go maps with string keys -/

/-- The names bound by a list of entries, in list order. -/
def keysOf {V : Type} (es : List (String × V)) : List String :=
  es.map Prod.fst

/-- An initialised Go map: a finite table of entries with pairwise distinct keys. -/
structure Table (V : Type) where
  entries : List (String × V)
  nodup : (keysOf entries).Nodup

/-- A Go `map[string]V`: `none` is the nil map. -/
abbrev GoMap (V : Type) := Option (Table V)

/-- The entries held by a map; the nil map holds none. -/
def GoMap.entries {V : Type} : GoMap V → List (String × V)
  | none => []
  | some t => t.entries

/-- The map read `v, ok := m[k]`: `some v` when `ok`, `none` otherwise. -/
def GoMap.get {V : Type} (m : GoMap V) (k : String) : Option V :=
  (GoMap.entries m).lookup k

/-- The key set of a map. -/
def GoMap.keys {V : Type} (m : GoMap V) : List String :=
  keysOf (GoMap.entries m)

/-- Entries of a list whose key differs from `k`. -/
def dropKey {V : Type} (k : String) (es : List (String × V)) : List (String × V) :=
  es.filter (fun e => decide (e.1 ≠ k))

/-- The map write `t[k] = v` on an initialised map. -/
def Table.set {V : Type} (t : Table V) (k : String) (v : V) : Table V :=
  ⟨(k, v) :: dropKey k t.entries, by
    have hk : keysOf (dropKey k t.entries)
        = (keysOf t.entries).filter (fun n => decide (n ≠ k)) := by
      unfold dropKey keysOf
      rw [List.filter_map]
      rfl
    show (k :: keysOf (dropKey k t.entries)).Nodup
    rw [hk]
    exact List.nodup_cons.mpr ⟨by simp [List.mem_filter], t.nodup.filter _⟩⟩

/-- The builtin `delete(t, k)` on an initialised map. -/
def Table.delete {V : Type} (t : Table V) (k : String) : Table V :=
  ⟨dropKey k t.entries, by
    have hk : keysOf (dropKey k t.entries)
        = (keysOf t.entries).filter (fun n => decide (n ≠ k)) := by
      unfold dropKey keysOf
      rw [List.filter_map]
      rfl
    rw [hk]
    exact t.nodup.filter _⟩

/-- The builtin `delete(m, k)`; a no-op on the nil map. -/
def GoMap.delete {V : Type} (m : GoMap V) (k : String) : GoMap V :=
  m.map (fun t => t.delete k)

/-- A list is a possible visiting order of `range m`: every entry of the map
exactly once. -/
def Enumerates {V : Type} (order : List (String × V)) (m : GoMap V) : Prop :=
  order.Perm (GoMap.entries m)

/-! ## Outcomes -/

/-- What a call leaves the caller with: a nil error, an error value (its
message), or a run-time panic. -/
inductive Outcome where
  | ok
  | error (msg : String)
  | panic
  deriving DecidableEq, Repr

/-! ## The registry -/

/-- The struct `Registry`: the plugin factories by name and the custom queue. -/
structure Registry (F Q : Type) where
  Pf : GoMap F
  CustomQueue : Option Q

/-- The method `Registry.Register`. -/
def Registry.Register {F Q : Type} (r : Registry F Q) (name : String) (factory : F) :
    Registry F Q × Outcome :=
  if (r.Pf.get name).isSome then
    (r, Outcome.error ("a plugin named " ++ name ++ " already exists"))
  else
    match r.Pf with
    | none => (r, Outcome.panic)
    | some t => ({ r with Pf := some (t.set name factory) }, Outcome.ok)

/-- The method `Registry.Unregister`. -/
def Registry.Unregister {F Q : Type} (r : Registry F Q) (name : String) :
    Registry F Q × Outcome :=
  if ¬ (r.Pf.get name).isSome then
    (r, Outcome.error ("no plugin named " ++ name ++ " exists"))
  else
    ({ r with Pf := r.Pf.delete name }, Outcome.ok)

/-- The loop of `Registry.Merge`: register the entries in visiting order and
stop at the first call that does not return a nil error. -/
def Registry.mergeLoop {F Q : Type} (r : Registry F Q) :
    List (String × F) → Registry F Q × Outcome
  | [] => (r, Outcome.ok)
  | (name, factory) :: rest =>
    match r.Register name factory with
    | (r1, Outcome.ok) => Registry.mergeLoop r1 rest
    | (r1, out) => (r1, out)

/-- The method `Registry.Merge`; `order` is the order in which `range in.Pf`
visits the entries of the argument. -/
def Registry.Merge {F Q : Type} (r : Registry F Q) (in_ : Registry F Q)
    (order : List (String × F)) : Registry F Q × Outcome :=
  let r0 : Registry F Q :=
    if in_.CustomQueue.isSome then { r with CustomQueue := in_.CustomQueue } else r
  Registry.mergeLoop r0 order

/-- The method `Registry.SetCustomQueue`. -/
def Registry.SetCustomQueue {F Q : Type} (r : Registry F Q) (customQueue : Option Q) :
    Registry F Q × Outcome :=
  if r.CustomQueue.isSome then
    (r, Outcome.error "custom queue is registered more than one time")
  else
    ({ r with CustomQueue := customQueue }, Outcome.ok)

/-! ## Decoding plugin configuration -/

/-- A byte of a `[]byte`. -/
abbrev Byte := Fin 256

/-- Modelled from the spec: the constant `runtime.ContentTypeJSON` of
`k8s.io/apimachinery/pkg/runtime`, whose declaration is outside the source file. -/
def ContentTypeJSON : String := "application/json"

/-- Modelled from the spec: the constant `runtime.ContentTypeYAML` of
`k8s.io/apimachinery/pkg/runtime`, whose declaration is outside the source file. -/
def ContentTypeYAML : String := "application/yaml"

/-- The fields of `runtime.Unknown` that `DecodeInto` reads.  `Raw` is a
`[]byte`: `none` is the nil slice, `some []` an empty slice that is not nil. -/
structure Unknown where
  Raw : Option (List Byte)
  ContentType : String
  deriving DecidableEq, Repr

/-- A non-nil `runtime.Object`, by dynamic type: a `*runtime.Unknown` (`none`
is the nil pointer of that type), or a value of any other type, of which only
the name printed by `%T` matters. -/
inductive Object where
  | unknown (p : Option Unknown)
  | other (typeName : String)
  deriving DecidableEq, Repr

/-- A deserialiser (`json.Unmarshal`, `yaml.Unmarshal`): from the bytes and the
target before the call to the target after the call and what the call returned. -/
abbrev Codec (T : Type) := List Byte → T → T × Outcome

/-- One call of a deserialiser, with the bytes passed to it. -/
inductive CodecCall where
  | json (raw : List Byte)
  | yaml (raw : List Byte)
  deriving DecidableEq, Repr

/-- What `DecodeInto` leaves behind: the target, the returned outcome, and the
deserialiser calls it made, in order. -/
structure Decoded (T : Type) where
  into : T
  outcome : Outcome
  calls : List CodecCall
  deriving DecidableEq, Repr

/-- The function `DecodeInto`, over the two deserialisers it calls. -/
def DecodeInto {T : Type} (jsonUnmarshal yamlUnmarshal : Codec T)
    (obj : Option Object) (into : T) : Decoded T :=
  match obj with
  | none => ⟨into, Outcome.ok, []⟩
  | some (Object.other typeName) =>
    ⟨into, Outcome.error ("want args of type runtime.Unknown, got " ++ typeName), []⟩
  | some (Object.unknown none) => ⟨into, Outcome.panic, []⟩
  | some (Object.unknown (some configuration)) =>
    match configuration.Raw with
    | none => ⟨into, Outcome.ok, []⟩
    | some raw =>
      if configuration.ContentType = ContentTypeJSON ∨ configuration.ContentType = "" then
        ⟨(jsonUnmarshal raw into).1, (jsonUnmarshal raw into).2, [CodecCall.json raw]⟩
      else if configuration.ContentType = ContentTypeYAML then
        ⟨(yamlUnmarshal raw into).1, (yamlUnmarshal raw into).2, [CodecCall.yaml raw]⟩
      else
        ⟨into, Outcome.error ("not supported content type " ++ configuration.ContentType), []⟩

/-! ## Call sequences and sample values -/

/-- The calls `SetCustomQueue(q1)`, `SetCustomQueue(q2)`, ... made one after
the other on a registry: after each call, the registry and the outcome. -/
def Registry.setCustomQueueCalls {F Q : Type} (r : Registry F Q) :
    List (Option Q) → List (Registry F Q × Outcome)
  | [] => []
  | q :: qs =>
    (r.SetCustomQueue q) :: Registry.setCustomQueueCalls (r.SetCustomQueue q).1 qs

/-- An initialised map with no entry (`map[string]V{}`). -/
def Table.empty {V : Type} : Table V := ⟨[], List.nodup_nil⟩

/-- A registry with an initialised, empty entry map and no custom queue. -/
def emptyRegistry : Registry Nat Nat := ⟨some Table.empty, none⟩

/-- A registry holding the plugins `a` and `b`, with custom queue 5. -/
def sampleRegistry : Registry Nat Nat :=
  ⟨some ((Table.empty.set "a" 1).set "b" 2), some 5⟩

/-- A registry holding the plugins `c` and `a`, with custom queue 9. -/
def otherRegistry : Registry Nat Nat :=
  ⟨some ((Table.empty.set "c" 3).set "a" 4), some 9⟩

/-- A registry holding the plugins `c` and `d`, without custom queue. -/
def disjointRegistry : Registry Nat Nat :=
  ⟨some ((Table.empty.set "c" 3).set "d" 4), none⟩

/-- A deserialiser that stores one more than the number of bytes it was given. -/
def lengthCodec : Codec Nat := fun raw _ => (raw.length + 1, Outcome.ok)

/-- A deserialiser that rejects every input and leaves the target alone. -/
def rejectCodec : Codec Nat := fun _ into => (into, Outcome.error "rejected")

/-- A registry holding the plugins `b` and `a`, without custom queue. -/
def clashRegistry : Registry Nat Nat :=
  ⟨some ((Table.empty.set "b" 8).set "a" 9), none⟩

/-- The zero value `Registry{}`: nil entry map, no custom queue. -/
def zeroRegistry : Registry Nat Nat := ⟨none, none⟩

/-- One call of a mutator of the registry, with its arguments; for `Merge`
the visiting order of the argument's entries comes with it. -/
inductive Op (F Q : Type) where
  | register (name : String) (factory : F)
  | unregister (name : String)
  | merge (in_ : Registry F Q) (order : List (String × F))
  | setCustomQueue (customQueue : Option Q)

/-- The custom queue that a call carries in a merged-in registry: the custom
queue of the argument of `Merge`, nothing for the other calls. -/
def Op.mergedQueue {F Q : Type} : Op F Q → Option Q
  | Op.merge in_ _ => in_.CustomQueue
  | _ => none

/-- The registry and the outcome that one call leaves behind. -/
def Registry.call {F Q : Type} (r : Registry F Q) : Op F Q → Registry F Q × Outcome
  | Op.register name factory => r.Register name factory
  | Op.unregister name => r.Unregister name
  | Op.merge in_ order => r.Merge in_ order
  | Op.setCustomQueue customQueue => r.SetCustomQueue customQueue

/-- Calls made one after the other on a registry: after each call, the
registry and the outcome. -/
def Registry.calls {F Q : Type} (r : Registry F Q) :
    List (Op F Q) → List (Registry F Q × Outcome)
  | [] => []
  | op :: ops => r.call op :: Registry.calls (r.call op).1 ops

/-- The registries that can be built from a registry without entries by
`Register` (with names satisfying `allowed`), `Unregister`, `Merge` (with an
argument built the same way, visited in any order) and `SetCustomQueue`. -/
inductive ReachableWith {F Q : Type} (allowed : String → Prop) : Registry F Q → Prop where
  | empty (r : Registry F Q) : r.Pf.keys = [] → ReachableWith allowed r
  | register (r : Registry F Q) (name : String) (factory : F) :
      ReachableWith allowed r → allowed name → ReachableWith allowed (r.Register name factory).1
  | unregister (r : Registry F Q) (name : String) :
      ReachableWith allowed r → ReachableWith allowed (r.Unregister name).1
  | merge (r in_ : Registry F Q) (order : List (String × F)) :
      ReachableWith allowed r → ReachableWith allowed in_ → Enumerates order in_.Pf →
      ReachableWith allowed (r.Merge in_ order).1
  | setCustomQueue (r : Registry F Q) (customQueue : Option Q) :
      ReachableWith allowed r → ReachableWith allowed (r.SetCustomQueue customQueue).1

/-! ## Facts about map reads -/

theorem lookup_dropKey {V : Type} (k m : String) (es : List (String × V)) :
    (dropKey k es).lookup m = if m = k then none else es.lookup m := by
  induction es with
  | nil => simp [dropKey]
  | cons e es ih =>
    obtain ⟨n, v⟩ := e
    unfold dropKey at ih ⊢
    by_cases hnk : n = k
    · subst hnk
      by_cases hm : m = n
      · simpa [List.filter_cons, hm] using ih
      · have hmn : (m == n) = false := by simpa using hm
        simpa [List.filter_cons, hm, List.lookup_cons, hmn] using ih
    · by_cases hm : m = k
      · subst hm
        have hmn : (m == n) = false := by simpa using fun h => hnk h.symm
        simpa [List.filter_cons, hnk, List.lookup_cons, hmn] using ih
      · by_cases hmn : m = n
        · subst hmn
          simp [List.filter_cons, hnk, List.lookup_cons]
        · have hmn2 : (m == n) = false := by simpa using hmn
          simpa [List.filter_cons, hnk, hm, List.lookup_cons, hmn2] using ih

theorem lookup_isSome_iff {V : Type} (m : String) (es : List (String × V)) :
    (es.lookup m).isSome ↔ m ∈ keysOf es := by
  induction es with
  | nil => simp [keysOf]
  | cons e es ih =>
    obtain ⟨n, v⟩ := e
    by_cases hmn : m = n
    · subst hmn
      simp [keysOf, List.lookup_cons]
    · have hmn2 : (m == n) = false := by simpa using hmn
      simp [keysOf, List.lookup_cons, hmn2, hmn] at ih ⊢

theorem lookup_eq_none_iff {V : Type} (m : String) (es : List (String × V)) :
    es.lookup m = none ↔ m ∉ keysOf es := by
  rw [← lookup_isSome_iff]
  cases es.lookup m <;> simp

theorem GoMap.get_isSome_iff {V : Type} (mp : GoMap V) (m : String) :
    (mp.get m).isSome ↔ m ∈ mp.keys :=
  lookup_isSome_iff m _

theorem GoMap.get_eq_none_iff {V : Type} (mp : GoMap V) (m : String) :
    mp.get m = none ↔ m ∉ mp.keys :=
  lookup_eq_none_iff m _

theorem Table.get_set {V : Type} (t : Table V) (k : String) (v : V) (m : String) :
    GoMap.get (some (t.set k v)) m = if m = k then some v else GoMap.get (some t) m := by
  unfold GoMap.get GoMap.entries Table.set
  by_cases hm : m = k
  · subst hm
    simp [List.lookup_cons]
  · have hmk : (m == k) = false := by simpa using hm
    simp [List.lookup_cons, hmk, hm, lookup_dropKey]

theorem GoMap.get_delete {V : Type} (mp : GoMap V) (k m : String) :
    (mp.delete k).get m = if m = k then none else mp.get m := by
  cases mp with
  | none => simp [GoMap.delete, GoMap.get, GoMap.entries]
  | some t => simp [GoMap.delete, GoMap.get, GoMap.entries, Table.delete, lookup_dropKey]

/-! ## Register and Unregister -/

theorem Register_present {F Q : Type} (r : Registry F Q) (n : String) (f : F)
    (h : (r.Pf.get n).isSome) :
    r.Register n f = (r, Outcome.error ("a plugin named " ++ n ++ " already exists")) := by
  simp [Registry.Register, h]

theorem Register_absent {F Q : Type} (r : Registry F Q) (t : Table F) (n : String) (f : F)
    (ht : r.Pf = some t) (h : r.Pf.get n = none) :
    r.Register n f = (⟨some (t.set n f), r.CustomQueue⟩, Outcome.ok) := by
  unfold Registry.Register
  rw [if_neg (by simp [h])]
  simp [ht]

/-- C1: registering a name that the registry already holds fails with the
message "a plugin named <n> already exists" and leaves the registry as it was:
the same entry map, in which n still has its original factory g, and the same
custom queue. -/
theorem Register_duplicate_fails {F Q : Type} (r : Registry F Q) (n : String) (f g : F)
    (h : r.Pf.get n = some g) :
    (r.Register n f).2 = Outcome.error ("a plugin named " ++ n ++ " already exists")
      ∧ (r.Register n f).1 = r
      ∧ (r.Register n f).1.Pf = r.Pf
      ∧ (r.Register n f).1.Pf.get n = some g
      ∧ (r.Register n f).1.CustomQueue = r.CustomQueue := by
  have hp : r.Register n f
      = (r, Outcome.error ("a plugin named " ++ n ++ " already exists")) :=
    Register_present r n f (by simp [h])
  rw [hp]
  exact ⟨rfl, rfl, rfl, h, rfl⟩

theorem Register_duplicate_fails_witness :
    sampleRegistry.Pf.get "a" = some 1
      ∧ (sampleRegistry.Register "a" 7).2 = Outcome.error ("a plugin named " ++ "a" ++ " already exists")
      ∧ (sampleRegistry.Register "a" 7).1.Pf.get "a" = some 1 :=
  ⟨by decide,
   (Register_duplicate_fails sampleRegistry "a" 7 1 (by decide)).1,
   (Register_duplicate_fails sampleRegistry "a" 7 1 (by decide)).2.2.2.1⟩

/-- C7: unregistering a name that the entry map does not hold (the nil map
included) fails with the message "no plugin named <n> exists" and leaves the
registry as it was: same entry map, same custom queue. -/
theorem Unregister_absent_fails {F Q : Type} (r : Registry F Q) (n : String)
    (h : r.Pf.get n = none) :
    (r.Unregister n).2 = Outcome.error ("no plugin named " ++ n ++ " exists")
      ∧ (r.Unregister n).1 = r
      ∧ (r.Unregister n).1.Pf = r.Pf
      ∧ (r.Unregister n).1.CustomQueue = r.CustomQueue := by
  have hp : r.Unregister n = (r, Outcome.error ("no plugin named " ++ n ++ " exists")) := by
    simp [Registry.Unregister, h]
  rw [hp]
  exact ⟨rfl, rfl, rfl, rfl⟩

theorem Unregister_absent_fails_witness :
    sampleRegistry.Pf.get "z" = none
      ∧ (sampleRegistry.Unregister "z").2 = Outcome.error ("no plugin named " ++ "z" ++ " exists")
      ∧ (sampleRegistry.Unregister "z").1 = sampleRegistry :=
  ⟨by decide,
   (Unregister_absent_fails sampleRegistry "z" (by decide)).1,
   (Unregister_absent_fails sampleRegistry "z" (by decide)).2.1⟩

/-- C8: on a registry whose entry map is initialised, registering a name the
map does not hold succeeds; afterwards the name reads back the new factory,
every other name reads what it read before, and the custom queue is the same. -/
theorem Register_fresh_succeeds {F Q : Type} (r : Registry F Q) (n : String) (f : F)
    (hinit : r.Pf.isSome) (h : r.Pf.get n = none) :
    (r.Register n f).2 = Outcome.ok
      ∧ (r.Register n f).1.Pf.get n = some f
      ∧ (∀ m, m ≠ n → (r.Register n f).1.Pf.get m = r.Pf.get m)
      ∧ (r.Register n f).1.CustomQueue = r.CustomQueue := by
  obtain ⟨t, ht⟩ := Option.isSome_iff_exists.mp hinit
  rw [Register_absent r t n f ht h]
  refine ⟨rfl, ?_, ?_, rfl⟩
  · simp [Table.get_set]
  · intro m hm
    simp [Table.get_set, hm, ht]

theorem Register_fresh_succeeds_witness :
    sampleRegistry.Pf.isSome ∧ sampleRegistry.Pf.get "z" = none
      ∧ (sampleRegistry.Register "z" 7).2 = Outcome.ok
      ∧ (sampleRegistry.Register "z" 7).1.Pf.get "z" = some 7 :=
  ⟨by decide, by decide,
   (Register_fresh_succeeds sampleRegistry "z" 7 (by decide) (by decide)).1,
   (Register_fresh_succeeds sampleRegistry "z" 7 (by decide) (by decide)).2.1⟩

/-- C9: unregistering a name the registry holds succeeds; afterwards the name
is absent, every other name reads what it read before (so none is added), and
the custom queue is the same. -/
theorem Unregister_present_succeeds {F Q : Type} (r : Registry F Q) (n : String)
    (h : (r.Pf.get n).isSome) :
    (r.Unregister n).2 = Outcome.ok
      ∧ (r.Unregister n).1.Pf.get n = none
      ∧ n ∉ (r.Unregister n).1.Pf.keys
      ∧ (∀ m, m ≠ n → (r.Unregister n).1.Pf.get m = r.Pf.get m)
      ∧ (r.Unregister n).1.CustomQueue = r.CustomQueue := by
  have hp : r.Unregister n = (⟨r.Pf.delete n, r.CustomQueue⟩, Outcome.ok) := by
    simp [Registry.Unregister, h]
  rw [hp]
  have hget : (r.Pf.delete n).get n = none := by simp [GoMap.get_delete]
  refine ⟨rfl, hget, (GoMap.get_eq_none_iff _ _).mp hget, ?_, rfl⟩
  intro m hm
  simp [GoMap.get_delete, hm]

theorem Unregister_present_succeeds_witness :
    (sampleRegistry.Pf.get "a").isSome
      ∧ (sampleRegistry.Unregister "a").2 = Outcome.ok
      ∧ (sampleRegistry.Unregister "a").1.Pf.get "a" = none :=
  ⟨by decide,
   (Unregister_present_succeeds sampleRegistry "a" (by decide)).1,
   (Unregister_present_succeeds sampleRegistry "a" (by decide)).2.1⟩

/-! ## The custom queue -/

theorem Register_CustomQueue {F Q : Type} (r : Registry F Q) (n : String) (f : F) :
    (r.Register n f).1.CustomQueue = r.CustomQueue := by
  unfold Registry.Register
  split
  · rfl
  · split <;> rfl

theorem mergeLoop_CustomQueue {F Q : Type} (order : List (String × F)) :
    ∀ r : Registry F Q, (Registry.mergeLoop r order).1.CustomQueue = r.CustomQueue := by
  induction order with
  | nil => intro r; rfl
  | cons e rest ih =>
    intro r
    obtain ⟨n, f⟩ := e
    have hq := Register_CustomQueue r n f
    rcases hreg : r.Register n f with ⟨r1, out⟩
    rw [hreg] at hq
    cases out with
    | ok => simpa [Registry.mergeLoop, hreg, ih r1] using hq
    | error msg => simpa [Registry.mergeLoop, hreg] using hq
    | panic => simpa [Registry.mergeLoop, hreg] using hq

/-- C5: when the merged-in registry has a custom queue, the receiver's custom
queue after Merge is that queue, whatever the receiver held before, whatever
the visiting order, and whether Merge returned nil, returned an error or
panicked. -/
theorem Merge_overwrites_CustomQueue {F Q : Type} (r in_ : Registry F Q)
    (order : List (String × F)) (h : in_.CustomQueue.isSome) :
    (r.Merge in_ order).1.CustomQueue = in_.CustomQueue := by
  unfold Registry.Merge
  simp only [h, if_true]
  rw [mergeLoop_CustomQueue]

theorem Merge_overwrites_CustomQueue_witness :
    otherRegistry.CustomQueue.isSome
      ∧ sampleRegistry.CustomQueue = some 5
      ∧ (sampleRegistry.Merge otherRegistry [("a", 4), ("c", 3)]).2
          = Outcome.error "a plugin named a already exists"
      ∧ (sampleRegistry.Merge otherRegistry [("a", 4), ("c", 3)]).1.CustomQueue = some 9 :=
  ⟨by decide, by decide, by decide,
   Merge_overwrites_CustomQueue sampleRegistry otherRegistry [("a", 4), ("c", 3)] (by decide)⟩

theorem setCustomQueueCalls_of_set {F Q : Type} (r : Registry F Q) (h : r.CustomQueue.isSome)
    (qs : List (Option Q)) :
    r.setCustomQueueCalls qs
      = qs.map (fun _ => (r, Outcome.error "custom queue is registered more than one time")) := by
  induction qs with
  | nil => rfl
  | cons q qs ih =>
    have hcall : r.SetCustomQueue q
        = (r, Outcome.error "custom queue is registered more than one time") := by
      simp [Registry.SetCustomQueue, h]
    simp [Registry.setCustomQueueCalls, hcall, ih]

/-- C6, as the code has it: on a registry without custom queue, for a first
argument that is not nil and any later arguments, the first SetCustomQueue
call succeeds, every later call fails with "custom queue is registered more
than one time", and after each call the custom queue is the first argument
(the entry map is never touched). -/
theorem SetCustomQueue_once {F Q : Type} (r : Registry F Q) (q : Q) (qs : List (Option Q))
    (h : r.CustomQueue = none) :
    r.setCustomQueueCalls (some q :: qs)
      = (⟨r.Pf, some q⟩, Outcome.ok)
        :: qs.map (fun _ => ((⟨r.Pf, some q⟩ : Registry F Q),
              Outcome.error "custom queue is registered more than one time")) := by
  have hcall : r.SetCustomQueue (some q) = (⟨r.Pf, some q⟩, Outcome.ok) := by
    simp [Registry.SetCustomQueue, h]
  simp only [Registry.setCustomQueueCalls, hcall]
  rw [setCustomQueueCalls_of_set _ (by simp)]

theorem SetCustomQueue_once_witness :
    emptyRegistry.CustomQueue = none
      ∧ emptyRegistry.setCustomQueueCalls [some 3, some 4, none]
        = (⟨emptyRegistry.Pf, some 3⟩, Outcome.ok)
          :: [some 4, none].map (fun _ => ((⟨emptyRegistry.Pf, some 3⟩ : Registry Nat Nat),
                Outcome.error "custom queue is registered more than one time")) :=
  ⟨by decide, SetCustomQueue_once emptyRegistry 3 [some 4, none] (by decide)⟩

/-- C6 fails as stated: when the first argument is the nil queue, the first
call succeeds and leaves the queue unset, so the second call succeeds too and
the custom queue becomes its argument, not the first one. -/
theorem SetCustomQueue_nil_first_counterexample :
    emptyRegistry.CustomQueue = none
      ∧ (emptyRegistry.setCustomQueueCalls [none, some 7]).map Prod.snd
          = [Outcome.ok, Outcome.ok]
      ∧ (emptyRegistry.setCustomQueueCalls [none, some 7]).map Prod.snd
          ≠ [Outcome.ok, Outcome.error "custom queue is registered more than one time"]
      ∧ (emptyRegistry.setCustomQueueCalls [none, some 7]).map (fun x => x.1.CustomQueue)
          = [none, some 7] := by
  decide

/-! ## DecodeInto without raw bytes -/

/-- C10, as the code has it: for a configuration whose raw bytes are nil, with
any content type, any target and any deserialisers, DecodeInto returns nil,
calls no deserialiser and leaves the target as it was. -/
theorem DecodeInto_nil_raw {T : Type} (jsonUnmarshal yamlUnmarshal : Codec T)
    (configuration : Unknown) (into : T) (h : configuration.Raw = none) :
    DecodeInto jsonUnmarshal yamlUnmarshal (some (Object.unknown (some configuration))) into
      = ⟨into, Outcome.ok, []⟩ := by
  simp [DecodeInto, h]

theorem DecodeInto_nil_raw_witness :
    (⟨none, "xml"⟩ : Unknown).Raw = none
      ∧ DecodeInto lengthCodec rejectCodec (some (Object.unknown (some ⟨none, "xml"⟩))) 0
        = ⟨0, Outcome.ok, []⟩ :=
  ⟨rfl, DecodeInto_nil_raw lengthCodec rejectCodec ⟨none, "xml"⟩ 0 rfl⟩

/-- C10 fails as stated: an empty byte slice that is not nil is decoded like
any other.  With content type "xml" DecodeInto returns the unsupported content
type error, and with an unset content type it calls the JSON deserialiser on
the empty slice, which here changes the target. -/
theorem DecodeInto_empty_raw_counterexample :
    (([] : List Byte).length = 0)
      ∧ (DecodeInto lengthCodec rejectCodec (some (Object.unknown (some ⟨some [], "xml"⟩))) 0).outcome
          = Outcome.error "not supported content type xml"
      ∧ (DecodeInto lengthCodec rejectCodec (some (Object.unknown (some ⟨some [], ""⟩))) 0).calls
          = [CodecCall.json []]
      ∧ (DecodeInto lengthCodec rejectCodec (some (Object.unknown (some ⟨some [], ""⟩))) 0).into
          = 1 := by
  decide

/-! ## Visiting orders -/

theorem lookup_eq_some_iff_mem {V : Type} (es : List (String × V)) (hnd : (keysOf es).Nodup)
    (m : String) (v : V) : es.lookup m = some v ↔ (m, v) ∈ es := by
  induction es with
  | nil => simp
  | cons e es ih =>
    obtain ⟨n, w⟩ := e
    have hnd2 : n ∉ keysOf es ∧ (keysOf es).Nodup := by
      simpa [keysOf] using hnd
    by_cases hmn : m = n
    · subst hmn
      have hnot : (m, v) ∉ es := fun hmem =>
        hnd2.1 (List.mem_map.mpr ⟨(m, v), hmem, rfl⟩)
      simp only [List.lookup_cons, beq_self_eq_true, List.mem_cons, Prod.mk.injEq, true_and,
        Option.some.injEq]
      constructor
      · intro h; exact Or.inl h.symm
      · intro h
        rcases h with h | h
        · exact h.symm
        · exact absurd h hnot
    · have hmn2 : (m == n) = false := by simpa using hmn
      simp only [List.lookup_cons, hmn2, List.mem_cons, Prod.mk.injEq, hmn, false_and, false_or]
      exact ih hnd2.2

theorem Enumerates.keys_perm {V : Type} {order : List (String × V)} {mp : GoMap V}
    (h : Enumerates order mp) : (keysOf order).Perm mp.keys :=
  List.Perm.map Prod.fst h

theorem GoMap.keys_nodup {V : Type} (mp : GoMap V) : mp.keys.Nodup := by
  cases mp with
  | none => exact List.nodup_nil
  | some t => exact t.nodup

theorem Enumerates.nodup {V : Type} {order : List (String × V)} {mp : GoMap V}
    (h : Enumerates order mp) : (keysOf order).Nodup :=
  (List.Perm.nodup_iff h.keys_perm).mpr mp.keys_nodup

theorem Enumerates.mem_keys {V : Type} {order : List (String × V)} {mp : GoMap V}
    (h : Enumerates order mp) (m : String) : m ∈ keysOf order ↔ m ∈ mp.keys :=
  h.keys_perm.mem_iff

theorem Enumerates.lookup {V : Type} {order : List (String × V)} {mp : GoMap V}
    (h : Enumerates order mp) (m : String) : order.lookup m = mp.get m := by
  apply Option.ext
  intro v
  simp only [Option.mem_def]
  unfold GoMap.get
  rw [lookup_eq_some_iff_mem order h.nodup, lookup_eq_some_iff_mem _ mp.keys_nodup]
  exact List.Perm.mem_iff h

theorem exists_first_conflict {V : Type} (P : String → Prop) (order : List (String × V))
    (h : ∃ n, n ∈ keysOf order ∧ P n) :
    ∃ pre n f post, order = pre ++ (n, f) :: post ∧ (∀ m, m ∈ keysOf pre → ¬ P m) ∧ P n := by
  induction order with
  | nil =>
    obtain ⟨n, hn, _⟩ := h
    simp [keysOf] at hn
  | cons e rest ih =>
    obtain ⟨k, g⟩ := e
    by_cases hk : P k
    · exact ⟨[], k, g, rest, rfl, by simp [keysOf], hk⟩
    · have hrest : ∃ n, n ∈ keysOf rest ∧ P n := by
        obtain ⟨n, hn, hP⟩ := h
        have hn2 : n = k ∨ n ∈ keysOf rest := by simpa [keysOf] using hn
        rcases hn2 with hn2 | hn2
        · subst hn2; exact absurd hP hk
        · exact ⟨n, hn2, hP⟩
      obtain ⟨pre, n, f, post, hsplit, hpre, hn⟩ := ih hrest
      refine ⟨(k, g) :: pre, n, f, post, by simp [hsplit], ?_, hn⟩
      intro m hm
      have hm2 : m = k ∨ m ∈ keysOf pre := by simpa [keysOf] using hm
      rcases hm2 with hm2 | hm2
      · subst hm2; exact hk
      · exact hpre m hm2

/-! ## The loop of Merge -/

theorem mergeLoop_cons_ok {F Q : Type} (r r1 : Registry F Q) (n : String) (f : F)
    (rest : List (String × F)) (h : r.Register n f = (r1, Outcome.ok)) :
    Registry.mergeLoop r ((n, f) :: rest) = Registry.mergeLoop r1 rest := by
  simp [Registry.mergeLoop, h]

theorem mergeLoop_cons_error {F Q : Type} (r r1 : Registry F Q) (n : String) (f : F)
    (rest : List (String × F)) (msg : String) (h : r.Register n f = (r1, Outcome.error msg)) :
    Registry.mergeLoop r ((n, f) :: rest) = (r1, Outcome.error msg) := by
  simp [Registry.mergeLoop, h]

/-- Registering, in order, entries with pairwise distinct names none of which
the registry holds: every call succeeds and the entries are laid over the
registry. -/
theorem mergeLoop_fresh {F Q : Type} (order : List (String × F)) :
    ∀ (r : Registry F Q) (t : Table F), r.Pf = some t → (keysOf order).Nodup →
      (∀ m, m ∈ keysOf order → r.Pf.get m = none) →
      ∃ t1, Registry.mergeLoop r order = (⟨some t1, r.CustomQueue⟩, Outcome.ok)
        ∧ (∀ m, m ∈ keysOf order → GoMap.get (some t1) m = order.lookup m)
        ∧ (∀ m, m ∉ keysOf order → GoMap.get (some t1) m = r.Pf.get m) := by
  induction order with
  | nil =>
    intro r t ht _ _
    refine ⟨t, ?_, ?_, ?_⟩
    · simp [Registry.mergeLoop, ← ht]
    · intro m hm; simp [keysOf] at hm
    · intro m _; rw [ht]
  | cons e rest ih =>
    intro r t ht hnd habs
    obtain ⟨n, f⟩ := e
    have hnd2 : n ∉ keysOf rest ∧ (keysOf rest).Nodup := by
      simpa [keysOf] using hnd
    have hn : r.Pf.get n = none := habs n (by simp [keysOf])
    have hreg := Register_absent r t n f ht hn
    have habs1 : ∀ m, m ∈ keysOf rest →
        (⟨some (t.set n f), r.CustomQueue⟩ : Registry F Q).Pf.get m = none := by
      intro m hm
      have hmn : m ≠ n := fun hmn => hnd2.1 (hmn ▸ hm)
      have hmr : r.Pf.get m = none := habs m (by simp [keysOf] at hm ⊢; exact Or.inr hm)
      rw [ht] at hmr
      show GoMap.get (some (t.set n f)) m = none
      rw [Table.get_set, if_neg hmn, hmr]
    obtain ⟨t1, hloop, hin, hout⟩ := ih ⟨some (t.set n f), r.CustomQueue⟩ (t.set n f) rfl hnd2.2 habs1
    refine ⟨t1, ?_, ?_, ?_⟩
    · rw [mergeLoop_cons_ok r _ n f rest hreg, hloop]
    · intro m hm
      by_cases hmn : m = n
      · subst hmn
        rw [hout m hnd2.1]
        show GoMap.get (some (t.set m f)) m = _
        simp [Table.get_set, List.lookup_cons]
      · have hmr : m ∈ keysOf rest := by
          have : m = n ∨ m ∈ keysOf rest := by simpa [keysOf] using hm
          exact this.resolve_left hmn
        have hmn2 : (m == n) = false := by simpa using hmn
        rw [hin m hmr]
        simp [List.lookup_cons, hmn2]
    · intro m hm
      have hm2 : m ≠ n ∧ m ∉ keysOf rest := by simpa [keysOf] using hm
      rw [hout m hm2.2]
      show GoMap.get (some (t.set n f)) m = _
      rw [Table.get_set, if_neg hm2.1, ht]

theorem mergeLoop_append_ok {F Q : Type} (pre : List (String × F)) :
    ∀ (r r1 : Registry F Q) (rest : List (String × F)),
      Registry.mergeLoop r pre = (r1, Outcome.ok) →
      Registry.mergeLoop r (pre ++ rest) = Registry.mergeLoop r1 rest := by
  induction pre with
  | nil =>
    intro r r1 rest h
    simp [Registry.mergeLoop] at h
    simp [h]
  | cons e pre ih =>
    intro r r1 rest h
    obtain ⟨n, f⟩ := e
    rcases hreg : r.Register n f with ⟨r2, out⟩
    cases out with
    | ok =>
      rw [mergeLoop_cons_ok r r2 n f pre hreg] at h
      rw [List.cons_append, mergeLoop_cons_ok r r2 n f (pre ++ rest) hreg]
      exact ih r2 r1 rest h
    | error msg =>
      rw [mergeLoop_cons_error r r2 n f pre msg hreg] at h
      simp at h
    | panic =>
      simp [Registry.mergeLoop, hreg] at h

/-- The loop of Merge when the visiting order reaches, after names the registry
does not hold, a name it holds: the loop stops there with the duplicate name
error, having added what came before and nothing else. -/
theorem mergeLoop_conflict {F Q : Type} (r : Registry F Q) (pre post : List (String × F))
    (n : String) (f : F) (hnd : (keysOf pre).Nodup)
    (hpre : ∀ m, m ∈ keysOf pre → r.Pf.get m = none) (hn : (r.Pf.get n).isSome) :
    ∃ r1 : Registry F Q,
      Registry.mergeLoop r (pre ++ (n, f) :: post)
          = (r1, Outcome.error ("a plugin named " ++ n ++ " already exists"))
        ∧ r1.CustomQueue = r.CustomQueue
        ∧ (∀ m, m ∈ keysOf pre → r1.Pf.get m = pre.lookup m)
        ∧ (∀ m, m ∉ keysOf pre → r1.Pf.get m = r.Pf.get m) := by
  have hinit : ∃ t, r.Pf = some t := by
    cases hPf : r.Pf with
    | none => simp [hPf, GoMap.get, GoMap.entries] at hn
    | some t => exact ⟨t, rfl⟩
  obtain ⟨t, ht⟩ := hinit
  obtain ⟨t1, hloop, hin, hout⟩ := mergeLoop_fresh pre r t ht hnd hpre
  have hnpre : n ∉ keysOf pre := by
    intro hmem
    have := hpre n hmem
    simp [this] at hn
  have hn1 : ((⟨some t1, r.CustomQueue⟩ : Registry F Q).Pf.get n).isSome := by
    show (GoMap.get (some t1) n).isSome
    rw [hout n hnpre]
    exact hn
  refine ⟨⟨some t1, r.CustomQueue⟩, ?_, rfl, hin, hout⟩
  rw [mergeLoop_append_ok pre r _ _ hloop]
  exact mergeLoop_cons_error _ _ n f post _ (Register_present _ n f hn1)

/-! ## Merge -/

theorem Merge_eq_mergeLoop {F Q : Type} (r in_ : Registry F Q) (order : List (String × F)) :
    r.Merge in_ order
      = Registry.mergeLoop
          ⟨r.Pf, if in_.CustomQueue.isSome then in_.CustomQueue else r.CustomQueue⟩ order := by
  unfold Registry.Merge
  by_cases h : in_.CustomQueue.isSome <;> simp [h]

theorem keysOf_append {V : Type} (xs ys : List (String × V)) :
    keysOf (xs ++ ys) = keysOf xs ++ keysOf ys := by
  simp [keysOf]

/-- Merge into an initialised map from an argument that shares no name with
it: the call returns nil and the map reads the visited entries laid over the
receiver's. -/
theorem Merge_of_disjoint {F Q : Type} (r in_ : Registry F Q) (order : List (String × F))
    (hinit : r.Pf.isSome) (henum : Enumerates order in_.Pf)
    (hdisj : ∀ n, n ∈ r.Pf.keys → n ∉ in_.Pf.keys) :
    ∃ t1 q, r.Merge in_ order = (⟨some t1, q⟩, Outcome.ok)
      ∧ (∀ m, m ∈ keysOf order → GoMap.get (some t1) m = order.lookup m)
      ∧ (∀ m, m ∉ keysOf order → GoMap.get (some t1) m = r.Pf.get m) := by
  obtain ⟨t, ht⟩ := Option.isSome_iff_exists.mp hinit
  have habs : ∀ m, m ∈ keysOf order → r.Pf.get m = none := by
    intro m hm
    rw [GoMap.get_eq_none_iff]
    exact fun hr => hdisj m hr ((henum.mem_keys m).mp hm)
  obtain ⟨t1, hloop, hin, hout⟩ :=
    mergeLoop_fresh order
      (⟨r.Pf, if in_.CustomQueue.isSome then in_.CustomQueue else r.CustomQueue⟩ : Registry F Q)
      t ht henum.nodup habs
  exact ⟨t1, _, by rw [Merge_eq_mergeLoop, hloop], hin, hout⟩

/-- C2: when the receiver's entry map is initialised and no name of the
receiver is a name of the argument, Merge succeeds for every visiting order;
afterwards the names held are exactly those of the receiver and of the
argument, each name of the receiver reads the factory it had there and each
name of the argument the factory it has in the argument. -/
theorem Merge_disjoint_succeeds {F Q : Type} (r in_ : Registry F Q) (order : List (String × F))
    (hinit : r.Pf.isSome) (henum : Enumerates order in_.Pf)
    (hdisj : ∀ n, n ∈ r.Pf.keys → n ∉ in_.Pf.keys) :
    (r.Merge in_ order).2 = Outcome.ok
      ∧ (∀ n, n ∈ (r.Merge in_ order).1.Pf.keys ↔ n ∈ r.Pf.keys ∨ n ∈ in_.Pf.keys)
      ∧ (∀ n, n ∈ r.Pf.keys → (r.Merge in_ order).1.Pf.get n = r.Pf.get n)
      ∧ (∀ n, n ∈ in_.Pf.keys → (r.Merge in_ order).1.Pf.get n = in_.Pf.get n) := by
  obtain ⟨t1, q, hmerge, hin, hout⟩ := Merge_of_disjoint r in_ order hinit henum hdisj
  rw [hmerge]
  refine ⟨rfl, ?_, ?_, ?_⟩
  · intro n
    show n ∈ GoMap.keys (some t1) ↔ _
    rw [← GoMap.get_isSome_iff, ← henum.mem_keys n]
    by_cases hn : n ∈ keysOf order
    · rw [hin n hn, lookup_isSome_iff]
      simp [hn]
    · rw [hout n hn]
      show (r.Pf.get n).isSome ↔ _
      rw [GoMap.get_isSome_iff]
      simp [hn]
  · intro n hn
    have hno : n ∉ keysOf order := fun h => hdisj n hn ((henum.mem_keys n).mp h)
    exact hout n hno
  · intro n hn
    show GoMap.get (some t1) n = _
    rw [hin n ((henum.mem_keys n).mpr hn), henum.lookup]

theorem Merge_disjoint_succeeds_witness :
    sampleRegistry.Pf.isSome
      ∧ Enumerates [("c", 3), ("d", 4)] disjointRegistry.Pf
      ∧ (sampleRegistry.Merge disjointRegistry [("c", 3), ("d", 4)]).2 = Outcome.ok
      ∧ (sampleRegistry.Merge disjointRegistry [("c", 3), ("d", 4)]).1.Pf.get "d" = some 4 :=
  ⟨by decide, List.Perm.swap _ _ _,
   (Merge_disjoint_succeeds sampleRegistry disjointRegistry [("c", 3), ("d", 4)] (by decide)
      (List.Perm.swap _ _ _) (by decide)).1,
   by decide⟩

/-- Merge from an argument that shares a name with the receiver: for every
visiting order the call returns the duplicate name error for a shared name. -/
theorem Merge_of_overlap {F Q : Type} (r in_ : Registry F Q) (order : List (String × F))
    (henum : Enumerates order in_.Pf) (h : ∃ n, n ∈ r.Pf.keys ∧ n ∈ in_.Pf.keys) :
    ∃ n, n ∈ r.Pf.keys ∧ n ∈ in_.Pf.keys
      ∧ (r.Merge in_ order).2
          = Outcome.error ("a plugin named " ++ n ++ " already exists") := by
  obtain ⟨k, hkr, hki⟩ := h
  obtain ⟨pre, n, f, post, hsplit, hpre, hn⟩ :=
    exists_first_conflict (fun m => m ∈ r.Pf.keys) order
      ⟨k, (henum.mem_keys k).mpr hki, hkr⟩
  have hnd : (keysOf pre).Nodup := by
    have := henum.nodup
    rw [hsplit, keysOf_append] at this
    exact (List.nodup_append.mp this).1
  obtain ⟨r1, hloop, _, _, _⟩ :=
    mergeLoop_conflict
      (⟨r.Pf, if in_.CustomQueue.isSome then in_.CustomQueue else r.CustomQueue⟩ :
        Registry F Q) pre post n f hnd
      (fun m hm => (GoMap.get_eq_none_iff _ _).mpr (hpre m hm))
      ((GoMap.get_isSome_iff _ _).mpr hn)
  refine ⟨n, hn, ?_, ?_⟩
  · rw [← henum.mem_keys n, hsplit, keysOf_append]
    simp [keysOf]
  · rw [Merge_eq_mergeLoop, hsplit, hloop]

/-- C3: when the receiver's entry map is initialised, then for every visiting
order of the argument: if the two name sets share a name, Merge fails with
"a plugin named <n> already exists" for a name n held both by the argument
and by the receiver before the call; and Merge fails (returns an error)
exactly when the two name sets share a name, succeeding otherwise. -/
theorem Merge_fails_iff_overlap {F Q : Type} (r in_ : Registry F Q) (order : List (String × F))
    (hinit : r.Pf.isSome) (henum : Enumerates order in_.Pf) :
    ((∃ n, n ∈ r.Pf.keys ∧ n ∈ in_.Pf.keys) →
        ∃ n, n ∈ r.Pf.keys ∧ n ∈ in_.Pf.keys
          ∧ (r.Merge in_ order).2 = Outcome.error ("a plugin named " ++ n ++ " already exists"))
      ∧ ((∃ msg, (r.Merge in_ order).2 = Outcome.error msg)
          ↔ ∃ n, n ∈ r.Pf.keys ∧ n ∈ in_.Pf.keys)
      ∧ ((r.Merge in_ order).2 = Outcome.ok ↔ ¬ ∃ n, n ∈ r.Pf.keys ∧ n ∈ in_.Pf.keys) := by
  have hover : (∃ n, n ∈ r.Pf.keys ∧ n ∈ in_.Pf.keys) →
      ∃ n, n ∈ r.Pf.keys ∧ n ∈ in_.Pf.keys
        ∧ (r.Merge in_ order).2
            = Outcome.error ("a plugin named " ++ n ++ " already exists") :=
    Merge_of_overlap r in_ order henum
  have hdis : (¬ ∃ n, n ∈ r.Pf.keys ∧ n ∈ in_.Pf.keys) →
      (r.Merge in_ order).2 = Outcome.ok := by
    intro hno
    obtain ⟨t1, q, hmerge, _, _⟩ :=
      Merge_of_disjoint r in_ order hinit henum (fun n hr hi => hno ⟨n, hr, hi⟩)
    rw [hmerge]
  refine ⟨hover, ?_, ?_⟩
  · constructor
    · rintro ⟨msg, hmsg⟩
      by_contra hno
      rw [hdis hno] at hmsg
      cases hmsg
    · intro h
      obtain ⟨n, _, _, hn⟩ := hover h
      exact ⟨_, hn⟩
  · constructor
    · intro hok h
      obtain ⟨n, _, _, hn⟩ := hover h
      rw [hok] at hn
      cases hn
    · exact hdis

theorem Merge_fails_iff_overlap_witness :
    sampleRegistry.Pf.isSome
      ∧ Enumerates [("c", 3), ("a", 4)] otherRegistry.Pf
      ∧ (∃ n, n ∈ sampleRegistry.Pf.keys ∧ n ∈ otherRegistry.Pf.keys)
      ∧ (∃ n, n ∈ sampleRegistry.Pf.keys ∧ n ∈ otherRegistry.Pf.keys
          ∧ (sampleRegistry.Merge otherRegistry [("c", 3), ("a", 4)]).2
              = Outcome.error ("a plugin named " ++ n ++ " already exists")) :=
  ⟨by decide, List.Perm.swap _ _ _, ⟨"a", by decide, by decide⟩,
   (Merge_fails_iff_overlap sampleRegistry otherRegistry [("c", 3), ("a", 4)] (by decide)
      (List.Perm.swap _ _ _)).1 ⟨"a", by decide, by decide⟩⟩

/-- C4: when the visiting order of the argument is e1, e2, ... and position k
is the first whose name the receiver already holds, Merge fails with the
duplicate name error for that name and leaves the receiver with its original
entries plus e1..e(k-1): the names before position k read the argument's
factories, every other name reads what it read before the call (so no
original entry is removed or replaced and nothing visited at or after
position k is added), and the names held are the original ones and those
before position k. -/
theorem Merge_conflict_keeps_earlier_entries {F Q : Type} (r in_ : Registry F Q)
    (order pre post : List (String × F)) (n : String) (f : F)
    (henum : Enumerates order in_.Pf) (hsplit : order = pre ++ (n, f) :: post)
    (hpre : ∀ m, m ∈ keysOf pre → m ∉ r.Pf.keys) (hn : n ∈ r.Pf.keys) :
    (r.Merge in_ order).2 = Outcome.error ("a plugin named " ++ n ++ " already exists")
      ∧ (∀ m, m ∈ keysOf pre → (r.Merge in_ order).1.Pf.get m = in_.Pf.get m)
      ∧ (∀ m, m ∉ keysOf pre → (r.Merge in_ order).1.Pf.get m = r.Pf.get m)
      ∧ (∀ m, m ∈ r.Pf.keys → (r.Merge in_ order).1.Pf.get m = r.Pf.get m)
      ∧ (∀ m, m ∈ keysOf ((n, f) :: post) → (r.Merge in_ order).1.Pf.get m = r.Pf.get m)
      ∧ (∀ m, m ∈ (r.Merge in_ order).1.Pf.keys ↔ m ∈ r.Pf.keys ∨ m ∈ keysOf pre) := by
  have hndall : (keysOf pre ++ keysOf ((n, f) :: post)).Nodup := by
    have := henum.nodup
    rwa [hsplit, keysOf_append] at this
  have hnd : (keysOf pre).Nodup := (List.nodup_append.mp hndall).1
  have hdisj : ∀ m, m ∈ keysOf ((n, f) :: post) → m ∉ keysOf pre := fun m hm hp =>
    (List.nodup_append.mp hndall).2.2 hp hm
  obtain ⟨r1, hloop, _, hin, hout⟩ :=
    mergeLoop_conflict
      (⟨r.Pf, if in_.CustomQueue.isSome then in_.CustomQueue else r.CustomQueue⟩ :
        Registry F Q) pre post n f hnd
      (fun m hm => (GoMap.get_eq_none_iff _ _).mpr (hpre m hm))
      ((GoMap.get_isSome_iff _ _).mpr hn)
  rw [Merge_eq_mergeLoop, hsplit, hloop]
  have hpre_lookup : ∀ m, m ∈ keysOf pre → pre.lookup m = in_.Pf.get m := by
    intro m hm
    rw [← henum.lookup m, hsplit, List.lookup_append]
    have hsome : (pre.lookup m).isSome := (lookup_isSome_iff m pre).mpr hm
    cases hl : pre.lookup m with
    | none => simp [hl] at hsome
    | some v => simp
  refine ⟨rfl, ?_, hout, ?_, ?_, ?_⟩
  · intro m hm
    show r1.Pf.get m = _
    rw [hin m hm, hpre_lookup m hm]
  · intro m hm
    exact hout m (fun hp => hpre m hp hm)
  · intro m hm
    exact hout m (hdisj m hm)
  · intro m
    show m ∈ r1.Pf.keys ↔ _
    rw [← GoMap.get_isSome_iff]
    by_cases hm : m ∈ keysOf pre
    · rw [hin m hm, lookup_isSome_iff]
      simp [hm]
    · rw [hout m hm]
      show (r.Pf.get m).isSome ↔ _
      rw [GoMap.get_isSome_iff]
      simp [hm]

theorem Merge_conflict_keeps_earlier_entries_witness :
    Enumerates [("c", 3), ("a", 4)] otherRegistry.Pf
      ∧ (∀ m, m ∈ keysOf [("c", 3)] → m ∉ sampleRegistry.Pf.keys)
      ∧ "a" ∈ sampleRegistry.Pf.keys
      ∧ (sampleRegistry.Merge otherRegistry [("c", 3), ("a", 4)]).2
          = Outcome.error ("a plugin named " ++ "a" ++ " already exists")
      ∧ (sampleRegistry.Merge otherRegistry [("c", 3), ("a", 4)]).1.Pf.get "c" = some 3
      ∧ (sampleRegistry.Merge otherRegistry [("c", 3), ("a", 4)]).1.Pf.get "a" = some 1 :=
  ⟨List.Perm.swap _ _ _, by decide, by decide,
   (Merge_conflict_keeps_earlier_entries sampleRegistry otherRegistry [("c", 3), ("a", 4)]
      [("c", 3)] [] "a" 4 (List.Perm.swap _ _ _) rfl (by decide) (by decide)).1,
   by decide, by decide⟩

/-! ## DecodeInto with raw bytes, and on other objects -/

theorem ContentTypeYAML_ne_JSON : ¬ (ContentTypeYAML = ContentTypeJSON ∨ ContentTypeYAML = "") := by
  decide

/-- C11: for a configuration with raw bytes present, whatever the bytes and
the target: with content type JSON or with the unset content type, DecodeInto
returns what the JSON deserialiser returns on exactly those bytes and that
target, leaves the target as that one call leaves it, and makes no other call;
with content type YAML the same holds for the YAML deserialiser.  So the unset
content type gives the same result as JSON. -/
theorem DecodeInto_dispatch {T : Type} (jsonUnmarshal yamlUnmarshal : Codec T)
    (raw : List Byte) (into : T) :
    DecodeInto jsonUnmarshal yamlUnmarshal
        (some (Object.unknown (some ⟨some raw, ContentTypeJSON⟩))) into
        = ⟨(jsonUnmarshal raw into).1, (jsonUnmarshal raw into).2, [CodecCall.json raw]⟩
      ∧ DecodeInto jsonUnmarshal yamlUnmarshal
          (some (Object.unknown (some ⟨some raw, ""⟩))) into
        = ⟨(jsonUnmarshal raw into).1, (jsonUnmarshal raw into).2, [CodecCall.json raw]⟩
      ∧ DecodeInto jsonUnmarshal yamlUnmarshal
          (some (Object.unknown (some ⟨some raw, ""⟩))) into
        = DecodeInto jsonUnmarshal yamlUnmarshal
            (some (Object.unknown (some ⟨some raw, ContentTypeJSON⟩))) into
      ∧ DecodeInto jsonUnmarshal yamlUnmarshal
          (some (Object.unknown (some ⟨some raw, ContentTypeYAML⟩))) into
        = ⟨(yamlUnmarshal raw into).1, (yamlUnmarshal raw into).2, [CodecCall.yaml raw]⟩ := by
  refine ⟨?_, ?_, ?_, ?_⟩
  · simp [DecodeInto]
  · simp [DecodeInto]
  · simp [DecodeInto]
  · have h := ContentTypeYAML_ne_JSON
    simp only [DecodeInto]
    rw [if_neg h]
    simp

/-- C12: for a configuration with raw bytes present whose content type is
neither JSON, nor unset, nor YAML, DecodeInto returns the error "not supported
content type <ct>", calls no deserialiser and leaves the target as it was. -/
theorem DecodeInto_unsupported {T : Type} (jsonUnmarshal yamlUnmarshal : Codec T)
    (raw : List Byte) (ct : String) (into : T)
    (hjson : ct ≠ ContentTypeJSON) (hunset : ct ≠ "") (hyaml : ct ≠ ContentTypeYAML) :
    DecodeInto jsonUnmarshal yamlUnmarshal (some (Object.unknown (some ⟨some raw, ct⟩))) into
      = ⟨into, Outcome.error ("not supported content type " ++ ct), []⟩ := by
  simp only [DecodeInto]
  rw [if_neg (by simp [hjson, hunset]), if_neg hyaml]

theorem DecodeInto_unsupported_witness :
    "xml" ≠ ContentTypeJSON ∧ "xml" ≠ "" ∧ "xml" ≠ ContentTypeYAML
      ∧ DecodeInto lengthCodec rejectCodec
          (some (Object.unknown (some ⟨some [1, 2], "xml"⟩))) 0
        = ⟨0, Outcome.error ("not supported content type " ++ "xml"), []⟩ :=
  ⟨by decide, by decide, by decide,
   DecodeInto_unsupported lengthCodec rejectCodec [1, 2] "xml" 0
     (by decide) (by decide) (by decide)⟩

/-- C13: for a configuration object that is not nil and whose dynamic type is
not `*runtime.Unknown`, DecodeInto returns the error "want args of type
runtime.Unknown, got <its type>", calls no deserialiser and leaves the target
as it was; nothing else of the object is looked at. -/
theorem DecodeInto_other_type {T : Type} (jsonUnmarshal yamlUnmarshal : Codec T)
    (typeName : String) (into : T) :
    DecodeInto jsonUnmarshal yamlUnmarshal (some (Object.other typeName)) into
      = ⟨into, Outcome.error ("want args of type runtime.Unknown, got " ++ typeName), []⟩ := by
  simp only [DecodeInto]

/-- C14: for the nil configuration object, with any target and any
deserialisers, DecodeInto returns nil, calls no deserialiser and leaves the
target at the value the caller gave it. -/
theorem DecodeInto_nil_object {T : Type} (jsonUnmarshal yamlUnmarshal : Codec T) (into : T) :
    (DecodeInto jsonUnmarshal yamlUnmarshal none into).outcome = Outcome.ok
      ∧ (DecodeInto jsonUnmarshal yamlUnmarshal none into).calls = []
      ∧ (DecodeInto jsonUnmarshal yamlUnmarshal none into).into = into := by
  simp only [DecodeInto, and_self]

/-- C19: the check for nil raw bytes comes before the content type is looked
at: with nil raw bytes DecodeInto returns nil, calls no deserialiser and leaves
the target as it was for every content type, so it never returns the
unsupported content type error there, although with raw bytes present an
unsupported content type is reported. -/
theorem DecodeInto_nil_raw_before_content_type {T : Type}
    (jsonUnmarshal yamlUnmarshal : Codec T) (ct : String) (into : T) :
    (DecodeInto jsonUnmarshal yamlUnmarshal
        (some (Object.unknown (some ⟨none, ct⟩))) into).outcome = Outcome.ok
      ∧ (DecodeInto jsonUnmarshal yamlUnmarshal
          (some (Object.unknown (some ⟨none, ct⟩))) into).calls = []
      ∧ (DecodeInto jsonUnmarshal yamlUnmarshal
          (some (Object.unknown (some ⟨none, ct⟩))) into).into = into
      ∧ (DecodeInto jsonUnmarshal yamlUnmarshal
          (some (Object.unknown (some ⟨none, ct⟩))) into).outcome
        ≠ Outcome.error ("not supported content type " ++ ct)
      ∧ (DecodeInto jsonUnmarshal yamlUnmarshal
          (some (Object.unknown (some ⟨none, "xml"⟩))) into).outcome = Outcome.ok
      ∧ (DecodeInto jsonUnmarshal yamlUnmarshal
          (some (Object.unknown (some ⟨some [], "xml"⟩))) into).outcome
        = Outcome.error "not supported content type xml" := by
  have hxml : ¬ ("xml" = ContentTypeJSON ∨ "xml" = "") := by decide
  have hxml2 : ¬ ("xml" = ContentTypeYAML) := by decide
  refine ⟨?_, ?_, ?_, ?_, ?_, ?_⟩
  · simp only [DecodeInto]
  · simp only [DecodeInto]
  · simp only [DecodeInto]
  · simp only [DecodeInto]
    intro h
    cases h
  · simp only [DecodeInto]
  · simp only [DecodeInto]
    rw [if_neg hxml, if_neg hxml2]
    rfl

/-! ## The custom queue over a sequence of calls -/

theorem Unregister_CustomQueue {F Q : Type} (r : Registry F Q) (n : String) :
    (r.Unregister n).1.CustomQueue = r.CustomQueue := by
  unfold Registry.Unregister
  split <;> rfl

theorem SetCustomQueue_CustomQueue_of_set {F Q : Type} (r : Registry F Q) (q : Option Q)
    (h : r.CustomQueue.isSome) : (r.SetCustomQueue q).1.CustomQueue = r.CustomQueue := by
  simp [Registry.SetCustomQueue, h]

theorem Merge_CustomQueue {F Q : Type} (r in_ : Registry F Q) (order : List (String × F)) :
    (r.Merge in_ order).1.CustomQueue
      = if in_.CustomQueue.isSome then in_.CustomQueue else r.CustomQueue := by
  rw [Merge_eq_mergeLoop, mergeLoop_CustomQueue]

/-- C18: when the merged-in registry has no custom queue, the receiver's
custom queue after Merge is the one it had before, set or not, whatever the
visiting order and whether Merge returned nil, returned an error or panicked. -/
theorem Merge_keeps_CustomQueue {F Q : Type} (r in_ : Registry F Q)
    (order : List (String × F)) (h : in_.CustomQueue = none) :
    (r.Merge in_ order).1.CustomQueue = r.CustomQueue := by
  rw [Merge_CustomQueue, h]
  rfl

theorem Merge_keeps_CustomQueue_witness :
    disjointRegistry.CustomQueue = none
      ∧ (sampleRegistry.Merge disjointRegistry [("c", 3), ("d", 4)]).2 = Outcome.ok
      ∧ (sampleRegistry.Merge disjointRegistry [("c", 3), ("d", 4)]).1.CustomQueue = some 5
      ∧ (sampleRegistry.Merge clashRegistry [("b", 8), ("a", 9)]).2
          = Outcome.error "a plugin named b already exists"
      ∧ (sampleRegistry.Merge clashRegistry [("b", 8), ("a", 9)]).1.CustomQueue
          = sampleRegistry.CustomQueue :=
  ⟨by decide, by decide,
   Merge_keeps_CustomQueue sampleRegistry disjointRegistry [("c", 3), ("d", 4)] (by decide),
   by decide,
   Merge_keeps_CustomQueue sampleRegistry clashRegistry [("b", 8), ("a", 9)] (by decide)⟩

theorem call_CustomQueue {F Q : Type} (r : Registry F Q) (q : Q) (op : Op F Q)
    (hset : r.CustomQueue = some q)
    (hop : op.mergedQueue = none ∨ op.mergedQueue = some q) :
    (r.call op).1.CustomQueue = some q := by
  cases op with
  | register n f => simpa [Registry.call, Register_CustomQueue] using hset
  | unregister n => simpa [Registry.call, Unregister_CustomQueue] using hset
  | merge in_ order =>
    show (r.Merge in_ order).1.CustomQueue = some q
    rw [Merge_CustomQueue]
    rcases hop with hop | hop
    · have hq : in_.CustomQueue = none := hop
      simp [hq, hset]
    · have hq : in_.CustomQueue = some q := hop
      simp [hq]
  | setCustomQueue q1 =>
    show (r.SetCustomQueue q1).1.CustomQueue = some q
    rw [SetCustomQueue_CustomQueue_of_set r q1 (by simp [hset]), hset]

/-- C15, as the code has it: once the custom queue of a registry is a queue q,
it is still q after every later call of Register, Unregister, SetCustomQueue
and Merge, as long as no Merge among them is given a registry carrying a
custom queue other than q. -/
theorem CustomQueue_kept {F Q : Type} (ops : List (Op F Q)) :
    ∀ (r : Registry F Q) (q : Q), r.CustomQueue = some q →
      (∀ op, op ∈ ops → op.mergedQueue = none ∨ op.mergedQueue = some q) →
      ∀ x, x ∈ r.calls ops → x.1.CustomQueue = some q := by
  induction ops with
  | nil =>
    intro r q _ _ x hx
    simp [Registry.calls] at hx
  | cons op ops ih =>
    intro r q hset hops x hx
    have hfirst : (r.call op).1.CustomQueue = some q :=
      call_CustomQueue r q op hset (hops op (List.mem_cons_self _ _))
    have hx2 : x = r.call op ∨ x ∈ Registry.calls (r.call op).1 ops := by
      simpa [Registry.calls] using hx
    rcases hx2 with hx2 | hx2
    · rw [hx2]; exact hfirst
    · exact ih (r.call op).1 q hfirst
        (fun op1 hop1 => hops op1 (List.mem_cons_of_mem _ hop1)) x hx2

theorem CustomQueue_kept_witness :
    sampleRegistry.CustomQueue = some 5
      ∧ (sampleRegistry.calls
          [Op.register "z" 1, Op.merge disjointRegistry [("c", 3), ("d", 4)],
           Op.setCustomQueue (some 8), Op.unregister "a"]).map (fun x => x.1.CustomQueue)
        = [some 5, some 5, some 5, some 5]
      ∧ (∀ x, x ∈ sampleRegistry.calls
          [Op.register "z" 1, Op.merge disjointRegistry [("c", 3), ("d", 4)],
           Op.setCustomQueue (some 8), Op.unregister "a"] → x.1.CustomQueue = some 5) :=
  ⟨by decide, by decide,
   CustomQueue_kept
     [Op.register "z" 1, Op.merge disjointRegistry [("c", 3), ("d", 4)],
      Op.setCustomQueue (some 8), Op.unregister "a"] sampleRegistry 5 (by decide) (by decide)⟩

/-- C15 fails as stated: a custom queue set by SetCustomQueue is replaced by a
later Merge whose argument carries another custom queue. -/
theorem Merge_replaces_set_queue_counterexample :
    (emptyRegistry.calls
        [Op.setCustomQueue (some 5), Op.merge ⟨some Table.empty, some 9⟩ []]).map
          (fun x => (x.1.CustomQueue, x.2))
      = [(some 5, Outcome.ok), (some 9, Outcome.ok)] := by
  decide

/-! ## Panics -/

theorem Register_of_initialised {F Q : Type} (r : Registry F Q) (t : Table F) (n : String)
    (f : F) (ht : r.Pf = some t) :
    r.Register n f = (r, Outcome.error ("a plugin named " ++ n ++ " already exists"))
      ∨ r.Register n f = (⟨some (t.set n f), r.CustomQueue⟩, Outcome.ok) := by
  by_cases h : (r.Pf.get n).isSome
  · exact Or.inl (Register_present r n f h)
  · have hnone : r.Pf.get n = none := by
      cases hg : r.Pf.get n with
      | none => rfl
      | some v => simp [hg] at h
    exact Or.inr (Register_absent r t n f ht hnone)

theorem mergeLoop_of_initialised {F Q : Type} (order : List (String × F)) :
    ∀ r : Registry F Q, r.Pf.isSome →
      (Registry.mergeLoop r order).1.Pf.isSome
        ∧ ((Registry.mergeLoop r order).2 = Outcome.ok
            ∨ ∃ msg, (Registry.mergeLoop r order).2 = Outcome.error msg) := by
  induction order with
  | nil =>
    intro r hinit
    exact ⟨hinit, Or.inl rfl⟩
  | cons e rest ih =>
    intro r hinit
    obtain ⟨n, f⟩ := e
    obtain ⟨t, ht⟩ := Option.isSome_iff_exists.mp hinit
    rcases Register_of_initialised r t n f ht with h | h
    · rw [mergeLoop_cons_error r r n f rest _ h]
      exact ⟨hinit, Or.inr ⟨_, rfl⟩⟩
    · rw [mergeLoop_cons_ok r _ n f rest h]
      exact ih _ rfl

theorem Register_panic_iff {F Q : Type} (r : Registry F Q) (n : String) (f : F) :
    (r.Register n f).2 = Outcome.panic ↔ r.Pf = none := by
  cases hPf : r.Pf with
  | none => simp [Registry.Register, hPf, GoMap.get, GoMap.entries]
  | some t =>
    rcases Register_of_initialised r t n f hPf with h | h <;> simp [h]

/-- C17: on a registry whose entry map is initialised, Register, Unregister,
Merge and SetCustomQueue return nil or an error for every argument and never
panic.  For any registry, Register panics exactly when the entry map is the
nil map, Merge panics only when it is, and Unregister and SetCustomQueue never
panic. -/
theorem panic_only_on_nil_map {F Q : Type} (r : Registry F Q) :
    (r.Pf.isSome →
        (∀ n f, (r.Register n f).2 = Outcome.ok ∨ ∃ msg, (r.Register n f).2 = Outcome.error msg)
        ∧ (∀ n, (r.Unregister n).2 = Outcome.ok ∨ ∃ msg, (r.Unregister n).2 = Outcome.error msg)
        ∧ (∀ in_ order, (r.Merge in_ order).2 = Outcome.ok
            ∨ ∃ msg, (r.Merge in_ order).2 = Outcome.error msg)
        ∧ (∀ q, (r.SetCustomQueue q).2 = Outcome.ok
            ∨ ∃ msg, (r.SetCustomQueue q).2 = Outcome.error msg))
      ∧ (∀ n f, (r.Register n f).2 = Outcome.panic ↔ r.Pf = none)
      ∧ (∀ in_ order, (r.Merge in_ order).2 = Outcome.panic → r.Pf = none)
      ∧ (∀ n, (r.Unregister n).2 ≠ Outcome.panic)
      ∧ (∀ q, (r.SetCustomQueue q).2 ≠ Outcome.panic) := by
  have hunreg : ∀ n, (r.Unregister n).2 = Outcome.ok
      ∨ ∃ msg, (r.Unregister n).2 = Outcome.error msg := by
    intro n
    unfold Registry.Unregister
    split
    · exact Or.inr ⟨_, rfl⟩
    · exact Or.inl rfl
  have hset : ∀ q, (r.SetCustomQueue q).2 = Outcome.ok
      ∨ ∃ msg, (r.SetCustomQueue q).2 = Outcome.error msg := by
    intro q
    unfold Registry.SetCustomQueue
    split
    · exact Or.inr ⟨_, rfl⟩
    · exact Or.inl rfl
  have hmerge : r.Pf.isSome → ∀ in_ order, (r.Merge in_ order).2 = Outcome.ok
      ∨ ∃ msg, (r.Merge in_ order).2 = Outcome.error msg := by
    intro hinit in_ order
    rw [Merge_eq_mergeLoop]
    exact (mergeLoop_of_initialised order
      (⟨r.Pf, if in_.CustomQueue.isSome then in_.CustomQueue else r.CustomQueue⟩ :
        Registry F Q) hinit).2
  refine ⟨?_, Register_panic_iff r, ?_, ?_, ?_⟩
  · intro hinit
    refine ⟨?_, hunreg, hmerge hinit, hset⟩
    intro n f
    obtain ⟨t, ht⟩ := Option.isSome_iff_exists.mp hinit
    rcases Register_of_initialised r t n f ht with h | h
    · exact Or.inr ⟨_, by rw [h]⟩
    · exact Or.inl (by rw [h])
  · intro in_ order hp
    cases hPf : r.Pf with
    | none => rfl
    | some t =>
      rcases hmerge (by simp [hPf]) in_ order with h | ⟨msg, h⟩ <;> rw [h] at hp <;> cases hp
  · intro n hp
    rcases hunreg n with h | ⟨msg, h⟩ <;> rw [h] at hp <;> cases hp
  · intro q hp
    rcases hset q with h | ⟨msg, h⟩ <;> rw [h] at hp <;> cases hp

theorem panic_only_on_nil_map_witness :
    sampleRegistry.Pf.isSome
      ∧ ((sampleRegistry.Merge otherRegistry [("c", 3), ("a", 4)]).2 = Outcome.ok
          ∨ ∃ msg, (sampleRegistry.Merge otherRegistry [("c", 3), ("a", 4)]).2
              = Outcome.error msg)
      ∧ zeroRegistry.Pf = none
      ∧ (zeroRegistry.Register "a" 1).2 = Outcome.panic
      ∧ (zeroRegistry.Merge otherRegistry [("c", 3), ("a", 4)]).2 = Outcome.panic :=
  ⟨by decide,
   ((panic_only_on_nil_map sampleRegistry).1 (by decide)).2.2.1 otherRegistry
     [("c", 3), ("a", 4)],
   rfl,
   ((panic_only_on_nil_map zeroRegistry).2.1 "a" 1).mpr rfl,
   by decide⟩

/-! ## The names a registry holds -/

theorem Register_keys {F Q : Type} (r : Registry F Q) (n : String) (f : F) (k : String)
    (hk : k ∈ (r.Register n f).1.Pf.keys) : k = n ∨ k ∈ r.Pf.keys := by
  cases hPf : r.Pf with
  | none =>
    have hreg : (r.Register n f).1 = r := by
      simp [Registry.Register, hPf, GoMap.get, GoMap.entries]
    rw [hreg, hPf] at hk
    exact Or.inr hk
  | some t =>
    rcases Register_of_initialised r t n f hPf with h | h
    · rw [h] at hk
      rw [← hPf]
      exact Or.inr hk
    · rw [h] at hk
      have hsome : (GoMap.get (some (t.set n f)) k).isSome :=
        (GoMap.get_isSome_iff _ _).mpr hk
      rw [Table.get_set] at hsome
      by_cases hkn : k = n
      · exact Or.inl hkn
      · rw [if_neg hkn] at hsome
        exact Or.inr ((GoMap.get_isSome_iff _ _).mp hsome)

theorem Unregister_keys {F Q : Type} (r : Registry F Q) (n : String) (k : String)
    (hk : k ∈ (r.Unregister n).1.Pf.keys) : k ∈ r.Pf.keys := by
  unfold Registry.Unregister at hk
  split at hk
  · exact hk
  · have hsome : ((r.Pf.delete n).get k).isSome := (GoMap.get_isSome_iff _ _).mpr hk
    rw [GoMap.get_delete] at hsome
    by_cases hkn : k = n
    · simp [hkn] at hsome
    · rw [if_neg hkn] at hsome
      exact (GoMap.get_isSome_iff _ _).mp hsome

theorem mergeLoop_keys {F Q : Type} (order : List (String × F)) :
    ∀ (r : Registry F Q) (k : String), k ∈ (Registry.mergeLoop r order).1.Pf.keys →
      k ∈ keysOf order ∨ k ∈ r.Pf.keys := by
  induction order with
  | nil =>
    intro r k hk
    exact Or.inr hk
  | cons e rest ih =>
    intro r k hk
    obtain ⟨n, f⟩ := e
    have hreg := Register_keys r n f k
    rcases hr : r.Register n f with ⟨r1, out⟩
    rw [hr] at hreg
    have hstep : k ∈ r1.Pf.keys ∨ k ∈ keysOf rest := by
      cases out with
      | ok =>
        rw [mergeLoop_cons_ok r r1 n f rest hr] at hk
        exact (ih r1 k hk).symm
      | error msg =>
        rw [mergeLoop_cons_error r r1 n f rest msg hr] at hk
        exact Or.inl hk
      | panic =>
        simp only [Registry.mergeLoop, hr] at hk
        exact Or.inl hk
    rcases hstep with h | h
    · rcases hreg h with h2 | h2
      · exact Or.inl (by simp [keysOf, h2])
      · exact Or.inr h2
    · exact Or.inl (by simp [keysOf] at h ⊢; exact Or.inr h)

theorem ReachableWith.keys_allowed {F Q : Type} {allowed : String → Prop} {r : Registry F Q}
    (h : ReachableWith allowed r) : ∀ k, k ∈ r.Pf.keys → allowed k := by
  induction h with
  | empty r hr =>
    intro k hk
    rw [hr] at hk
    cases hk
  | register r n f _ hn ih =>
    intro k hk
    rcases Register_keys r n f k hk with h | h
    · rw [h]; exact hn
    · exact ih k h
  | unregister r n _ ih =>
    intro k hk
    exact ih k (Unregister_keys r n k hk)
  | merge r in_ order _ _ henum ihr ihin =>
    intro k hk
    rw [Merge_eq_mergeLoop] at hk
    rcases mergeLoop_keys order _ k hk with h | h
    · exact ihin k ((henum.mem_keys k).mp h)
    · exact ihr k h
  | setCustomQueue r q _ ih =>
    intro k hk
    have hPf : (r.SetCustomQueue q).1.Pf = r.Pf := by
      unfold Registry.SetCustomQueue
      split <;> rfl
    rw [hPf] at hk
    exact ih k hk

/-- C16, as the code has it: the registry stores the names it is given and
does not reject the empty string, so in every registry built from a registry
without entries by Register, Unregister, Merge (with an argument built the
same way, visited in any order) and SetCustomQueue, no key of the entry map is
the empty string provided no Register call was given the empty string. -/
theorem no_empty_name_unless_registered {F Q : Type} (r : Registry F Q)
    (h : ReachableWith (fun n => n ≠ "") r) : "" ∉ r.Pf.keys :=
  fun hk => h.keys_allowed "" hk rfl

theorem no_empty_name_unless_registered_witness :
    ReachableWith (fun n => n ≠ "") (emptyRegistry.Register "a" 1).1
      ∧ (emptyRegistry.Register "a" 1).1.Pf.keys = ["a"]
      ∧ "" ∉ (emptyRegistry.Register "a" 1).1.Pf.keys :=
  ⟨ReachableWith.register emptyRegistry "a" 1 (ReachableWith.empty emptyRegistry rfl)
      (by decide),
   by decide,
   no_empty_name_unless_registered (emptyRegistry.Register "a" 1).1
     (ReachableWith.register emptyRegistry "a" 1 (ReachableWith.empty emptyRegistry rfl)
       (by decide))⟩

/-- C16 fails as stated: Register accepts the empty string as a name, so a
registry built from the empty one by a single Register call holds the empty
name. -/
theorem Register_empty_name_counterexample :
    emptyRegistry.Pf.keys = []
      ∧ ReachableWith (fun _ => True) (emptyRegistry.Register "" 7).1
      ∧ (emptyRegistry.Register "" 7).2 = Outcome.ok
      ∧ "" ∈ (emptyRegistry.Register "" 7).1.Pf.keys
      ∧ (emptyRegistry.Register "" 7).1.Pf.get "" = some 7 :=
  ⟨rfl,
   ReachableWith.register emptyRegistry "" 7 (ReachableWith.empty emptyRegistry rfl) trivial,
   by decide, by decide, by decide⟩

/-! ## Merge and the visiting order -/

theorem mergeLoop_nil_map {F Q : Type} (r : Registry F Q) (hPf : r.Pf = none)
    (order : List (String × F)) :
    Registry.mergeLoop r order
      = (r, if order.isEmpty then Outcome.ok else Outcome.panic) := by
  cases order with
  | nil => rfl
  | cons e rest =>
    obtain ⟨n, f⟩ := e
    have hreg : r.Register n f = (r, Outcome.panic) := by
      simp [Registry.Register, hPf, GoMap.get, GoMap.entries]
    simp [Registry.mergeLoop, hreg]

/-- For two visiting orders of the same argument, Merge succeeds for both or
for neither, and when it succeeds it leaves the same reads and the same custom
queue. -/
theorem Merge_order_irrelevant {F Q : Type} (r in_ : Registry F Q)
    (o1 o2 : List (String × F)) (h1 : Enumerates o1 in_.Pf) (h2 : Enumerates o2 in_.Pf) :
    ((r.Merge in_ o1).2 = Outcome.ok ↔ (r.Merge in_ o2).2 = Outcome.ok)
      ∧ ((r.Merge in_ o1).2 = Outcome.ok →
          (∀ m, (r.Merge in_ o1).1.Pf.get m = (r.Merge in_ o2).1.Pf.get m)
            ∧ (r.Merge in_ o1).1.CustomQueue = (r.Merge in_ o2).1.CustomQueue) := by
  have hq : (r.Merge in_ o1).1.CustomQueue = (r.Merge in_ o2).1.CustomQueue := by
    rw [Merge_CustomQueue, Merge_CustomQueue]
  cases hPf : r.Pf with
  | none =>
    have hnil : o1 = [] ↔ o2 = [] := by
      have hperm : o1.Perm o2 := List.Perm.trans h1 (List.Perm.symm h2)
      constructor
      · intro h; rw [h] at hperm; exact List.Perm.eq_nil (List.Perm.symm hperm)
      · intro h; rw [h] at hperm; exact List.Perm.eq_nil hperm
    have e1 := mergeLoop_nil_map
      (⟨r.Pf, if in_.CustomQueue.isSome then in_.CustomQueue else r.CustomQueue⟩ :
        Registry F Q) hPf o1
    have e2 := mergeLoop_nil_map
      (⟨r.Pf, if in_.CustomQueue.isSome then in_.CustomQueue else r.CustomQueue⟩ :
        Registry F Q) hPf o2
    rw [Merge_eq_mergeLoop, Merge_eq_mergeLoop, e1, e2]
    by_cases ho : o1 = []
    · have ho2 : o2 = [] := hnil.mp ho
      simp [ho, ho2]
    · have ho2 : ¬ o2 = [] := fun h => ho (hnil.mpr h)
      simp [List.isEmpty_iff, ho, ho2]
  | some t =>
    have hinit : r.Pf.isSome := by simp [hPf]
    by_cases hover : ∃ n, n ∈ r.Pf.keys ∧ n ∈ in_.Pf.keys
    · obtain ⟨n1, _, _, hn1⟩ := Merge_of_overlap r in_ o1 h1 hover
      obtain ⟨n2, _, _, hn2⟩ := Merge_of_overlap r in_ o2 h2 hover
      rw [hn1, hn2]
      simp
    · have hdisj : ∀ n, n ∈ r.Pf.keys → n ∉ in_.Pf.keys := fun n hr hi => hover ⟨n, hr, hi⟩
      obtain ⟨t1, q1, hm1, hin1, hout1⟩ := Merge_of_disjoint r in_ o1 hinit h1 hdisj
      obtain ⟨t2, q2, hm2, hin2, hout2⟩ := Merge_of_disjoint r in_ o2 hinit h2 hdisj
      have hq2 := hq
      rw [hm1, hm2] at hq2 ⊢
      refine ⟨⟨fun _ => rfl, fun _ => rfl⟩, fun _ => ⟨?_, hq2⟩⟩
      intro m
      show GoMap.get (some t1) m = GoMap.get (some t2) m
      by_cases hm : m ∈ in_.Pf.keys
      · rw [hin1 m ((h1.mem_keys m).mpr hm), hin2 m ((h2.mem_keys m).mpr hm),
          h1.lookup, h2.lookup]
      · rw [hout1 m (fun h => hm ((h1.mem_keys m).mp h)),
          hout2 m (fun h => hm ((h2.mem_keys m).mp h)), hPf]

/-- C20: the registry that a failed Merge leaves behind depends on the order
in which the argument's entries are visited.  Merging the registry holding
`c` and `a` into the one holding `a` and `b` fails for both visiting orders,
yet one leaves `c` registered and the other does not; merging the registry
holding `b` and `a` reports `a` for one order and `b` for the other.  By
contrast, for any two visiting orders of any argument, Merge succeeds for both
or for neither, and on success the reads of the entry map and the custom queue
are the same. -/
theorem Merge_failure_depends_on_order :
    (Enumerates [("a", 4), ("c", 3)] otherRegistry.Pf
        ∧ Enumerates [("c", 3), ("a", 4)] otherRegistry.Pf
        ∧ (sampleRegistry.Merge otherRegistry [("a", 4), ("c", 3)]).2
            = Outcome.error "a plugin named a already exists"
        ∧ (sampleRegistry.Merge otherRegistry [("c", 3), ("a", 4)]).2
            = Outcome.error "a plugin named a already exists"
        ∧ (sampleRegistry.Merge otherRegistry [("a", 4), ("c", 3)]).1.Pf.get "c" = none
        ∧ (sampleRegistry.Merge otherRegistry [("c", 3), ("a", 4)]).1.Pf.get "c" = some 3)
      ∧ (Enumerates [("a", 9), ("b", 8)] clashRegistry.Pf
        ∧ Enumerates [("b", 8), ("a", 9)] clashRegistry.Pf
        ∧ (sampleRegistry.Merge clashRegistry [("a", 9), ("b", 8)]).2
            = Outcome.error "a plugin named a already exists"
        ∧ (sampleRegistry.Merge clashRegistry [("b", 8), ("a", 9)]).2
            = Outcome.error "a plugin named b already exists")
      ∧ (∀ (F Q : Type) (r in_ : Registry F Q) (o1 o2 : List (String × F)),
          Enumerates o1 in_.Pf → Enumerates o2 in_.Pf →
          ((r.Merge in_ o1).2 = Outcome.ok ↔ (r.Merge in_ o2).2 = Outcome.ok)
            ∧ ((r.Merge in_ o1).2 = Outcome.ok →
                (∀ m, (r.Merge in_ o1).1.Pf.get m = (r.Merge in_ o2).1.Pf.get m)
                  ∧ (r.Merge in_ o1).1.CustomQueue = (r.Merge in_ o2).1.CustomQueue)) := by
  refine ⟨⟨?_, ?_, ?_, ?_, ?_, ?_⟩, ⟨?_, ?_, ?_, ?_⟩, ?_⟩
  · exact List.Perm.refl _
  · exact List.Perm.swap _ _ _
  · decide
  · decide
  · decide
  · decide
  · exact List.Perm.refl _
  · exact List.Perm.swap _ _ _
  · decide
  · decide
  · intro F Q r in_ o1 o2 h1 h2
    exact Merge_order_irrelevant r in_ o1 o2 h1 h2

theorem Merge_failure_depends_on_order_witness :
    Enumerates [("c", 3), ("d", 4)] disjointRegistry.Pf
      ∧ Enumerates [("d", 4), ("c", 3)] disjointRegistry.Pf
      ∧ (sampleRegistry.Merge disjointRegistry [("c", 3), ("d", 4)]).2 = Outcome.ok
      ∧ ((sampleRegistry.Merge disjointRegistry [("c", 3), ("d", 4)]).2 = Outcome.ok
          ↔ (sampleRegistry.Merge disjointRegistry [("d", 4), ("c", 3)]).2 = Outcome.ok) :=
  ⟨List.Perm.swap _ _ _, List.Perm.refl _, by decide,
   (Merge_failure_depends_on_order.2.2 Nat Nat sampleRegistry disjointRegistry
      [("c", 3), ("d", 4)] [("d", 4), ("c", 3)]
      (List.Perm.swap _ _ _) (List.Perm.refl _)).1⟩

end SchedRuntime
